import Mathlib

/-!
Shallow embedding of `src/netbox/dcim/models/cables.py`: the `Cable`,
`CableTermination` and `CablePath` models and the path-tracing engine
(`CablePath.from_origin`, `CablePath.retrace`, and the path accessors).

Django rows become Lean structures; the database becomes an explicit
`Topology` value holding the rows, and every queryset lookup of the source
becomes a list filter over that value.  Generic-foreign-key path nodes
(`object_to_path_node` / `path_node_to_object`) become pairs of a type tag
and a numeric id.  The unbounded `while terminations:` loop of
`CablePath.from_origin` is embedded with an explicit fuel parameter: `none`
means the fuel ran out before the loop halted; the source's `assert`
statements (and the `IndexError` crashes reachable on corrupt data) become
the `TraceResult.fail` outcome, and the source's `return None` becomes
`TraceResult.retNone`.
-/

/-- One side of a circuit: `term_side` of a CircuitTermination. -/
inductive TermSide
  | A
  | Z
deriving DecidableEq, Repr

/-- One end of a cable: `cable_end` of a CableTermination. -/
inductive CableEnd
  | A
  | B
deriving DecidableEq, Repr

/-- Status choices (`LinkStatusChoices`): status of a Cable or WirelessLink. -/
inductive LinkStatus
  | connected
  | planned
  | decommissioning
deriving DecidableEq, Repr

/-- The content-type tag of a path node (the first half of the encoded
`(type, id)` node produced by `object_to_path_node`). -/
inductive NodeKind
  | iface
  | front
  | rear
  | circuit
  | cable
  | wireless
  | provider
  | site
deriving DecidableEq, Repr

/-- An encoded path node: content-type tag plus numeric id. -/
abbrev Node := NodeKind × Nat

/-- An Interface row (also standing for the other terminal endpoint models:
console ports, power ports and so on, which `from_origin` treats alike). -/
structure Interface where
  id : Nat
  parent : Nat
deriving DecidableEq, Repr

/-- A FrontPort row: pass-through port paired to one position of a RearPort. -/
structure FrontPort where
  id : Nat
  parent : Nat
  rear_port_id : Nat
  rear_port_position : Nat
deriving DecidableEq, Repr

/-- A RearPort row: pass-through port with a `positions` count. -/
structure RearPort where
  id : Nat
  parent : Nat
  positions : Nat
deriving DecidableEq, Repr

/-- A CircuitTermination row: one side of a circuit, optionally attached to a
provider network or a site.  Its `parent_object` is its circuit. -/
structure CircuitTermination where
  id : Nat
  circuit : Nat
  term_side : TermSide
  provider_network : Option Nat
  site : Option Nat
deriving DecidableEq, Repr

/-- A termination object: anything a Cable or WirelessLink can attach to. -/
inductive Termination
  | iface (i : Interface)
  | front (f : FrontPort)
  | rear (r : RearPort)
  | circuit (c : CircuitTermination)
deriving DecidableEq, Repr

/-- Source `object_to_path_node`, on termination objects: the encoded
(content type, id) pair. -/
def object_to_path_node : Termination → Node
  | .iface i => (NodeKind.iface, i.id)
  | .front f => (NodeKind.front, f.id)
  | .rear r => (NodeKind.rear, r.id)
  | .circuit c => (NodeKind.circuit, c.id)

/-- The `parent_object` of a termination (device for ports, circuit for circuit
terminations), as compared by the homogeneity assertion of `from_origin`. -/
def Termination.parent_object : Termination → Nat
  | .iface i => i.parent
  | .front f => f.parent
  | .rear r => r.parent
  | .circuit c => c.circuit

/-- The runtime type tag of a termination, as compared by the
`isinstance(t, type(terminations[0]))` assertion of `from_origin`. -/
def Termination.kind : Termination → NodeKind
  | .iface _ => NodeKind.iface
  | .front _ => NodeKind.front
  | .rear _ => NodeKind.rear
  | .circuit _ => NodeKind.circuit

/-- A Cable row.  `length` is the normalized `_abs_length` in meters
(`none` when the cable has no recorded length); `a_terms` / `b_terms` are
its CableTermination join rows for ends A and B, each an encoded
termination key. -/
structure Cable where
  id : Nat
  status : LinkStatus
  length : Option ℚ
  a_terms : List Node
  b_terms : List Node
deriving DecidableEq, Repr

/-- A WirelessLink row: connects exactly two interfaces. -/
structure WirelessLink where
  id : Nat
  status : LinkStatus
  interface_a : Nat
  interface_b : Nat
deriving DecidableEq, Repr

/-- A link: the two things `terminations[0].link` can be. -/
inductive Link
  | cable (c : Cable)
  | wireless (w : WirelessLink)
deriving DecidableEq, Repr

/-- Source `object_to_path_node`, on link objects. -/
def Link.toNode : Link → Node
  | .cable c => (NodeKind.cable, c.id)
  | .wireless w => (NodeKind.wireless, w.id)

/-- Status of a link (both Cable and WirelessLink carry one). -/
def Link.status : Link → LinkStatus
  | .cable c => c.status
  | .wireless w => w.status

/-- The database snapshot the trace runs against: all rows of each model. -/
structure Topology where
  interfaces : List Interface
  frontPorts : List FrontPort
  rearPorts : List RearPort
  circuitTerms : List CircuitTermination
  cables : List Cable
  wirelessLinks : List WirelessLink
deriving Repr

/-- Termination key of a termination, used to match CableTermination rows. -/
def Termination.key (t : Termination) : Node := object_to_path_node t

/-- Lookup of `t.link`: the Cable whose CableTermination rows include `t`, else (for an
interface) the WirelessLink attached to it, else `None`. -/
def Topology.link (topo : Topology) (t : Termination) : Option Link :=
  match topo.cables.find? (fun c =>
      c.a_terms.any (fun k => decide (k = t.key)) ||
      c.b_terms.any (fun k => decide (k = t.key))) with
  | some c => some (Link.cable c)
  | none =>
    match t with
    | .iface i =>
      (topo.wirelessLinks.find? (fun w =>
        decide (w.interface_a = i.id) || decide (w.interface_b = i.id))).map Link.wireless
    | _ => none

/-- Source `path_node_to_object`, for termination nodes: resolve an
encoded node back to the live row.  `none` when the row does not exist (the
source's generic foreign key would yield `None`). -/
def path_node_to_object (topo : Topology) (n : Node) : Option Termination :=
  match n.1 with
  | NodeKind.iface => (topo.interfaces.find? (fun i => decide (i.id = n.2))).map Termination.iface
  | NodeKind.front => (topo.frontPorts.find? (fun f => decide (f.id = n.2))).map Termination.front
  | NodeKind.rear => (topo.rearPorts.find? (fun r => decide (r.id = n.2))).map Termination.rear
  | NodeKind.circuit =>
    (topo.circuitTerms.find? (fun c => decide (c.id = n.2))).map Termination.circuit
  | _ => none

/-- Resolve a list of encoded nodes in order, failing as a whole if any one
is dangling. -/
def resolveAll (topo : Topology) : List Node → Option (List Termination)
  | [] => some []
  | n :: ns =>
    match path_node_to_object topo n, resolveAll topo ns with
    | some t, some ts => some (t :: ts)
    | _, _ => none

/-- Source `flatten_path` of `dcim.utils`: concatenate the hop-groups in order. -/
def flatten_path (path : List (List Node)) : List Node := path.flatten

/-- The `CablePath` record: the hop-group sequence and the three flags, as
`from_origin` assembles them. -/
structure CablePath where
  path : List (List Node)
  is_complete : Bool
  is_active : Bool
  is_split : Bool
deriving DecidableEq, Repr

/-- Coerce a far-end set to FrontPort rows: `some` when every member is a
FrontPort; `none` models the AttributeError the source raises when
`t.rear_port_id` is read off a non-FrontPort in a mixed set. -/
def allFront : List Termination → Option (List FrontPort)
  | [] => some []
  | .front f :: rest => (allFront rest).map (f :: ·)
  | _ => none

/-- Coerce a far-end set to RearPort rows (see `allFront`). -/
def allRear : List Termination → Option (List RearPort)
  | [] => some []
  | .rear r :: rest => (allRear rest).map (r :: ·)
  | _ => none

/-- Coerce a far-end set to CircuitTermination rows (see `allFront`). -/
def allCircuit : List Termination → Option (List CircuitTermination)
  | [] => some []
  | .circuit c :: rest => (allCircuit rest).map (c :: ·)
  | _ => none

/-- The queryset `FrontPort.objects.filter(rear_port_id__in=rearIds, rear_port_position__in=ps)`
from step 6 of `from_origin`, returned as termination objects. -/
def frontPortsIn (topo : Topology) (rearIds : List Nat) (ps : List Nat) : List Termination :=
  (topo.frontPorts.filter (fun fp =>
    rearIds.any (fun i => decide (i = fp.rear_port_id)) &&
    ps.any (fun p => decide (p = fp.rear_port_position)))).map Termination.front

/-- The opposite side of a circuit: `'Z' if term_side == 'A' else 'A'`. -/
def oppositeSide : TermSide → TermSide
  | .A => .Z
  | .Z => .A

/-- Outcome of step 6 of `from_origin` (the fan-out over the far-end set):
continue with a new termination set and position stack, halt as a terminal
endpoint, halt split, halt at a circuit break (with the extra hop-groups the
circuit cases append), or crash on an assertion/index error. -/
inductive FanOut
  | next (ts : List Termination) (stack : List (List Nat))
  | terminal
  | split
  | circuitBreak (extra : List (List Node))
  | fail
deriving DecidableEq, Repr

/-- Step 6 of `from_origin`: determine the "next hop" terminations from the
far-end set `remote`, maintaining the position stack. -/
def fanOut (topo : Topology) (remote : List Termination) (stack : List (List Nat)) : FanOut :=
  match remote with
  | [] => FanOut.fail
  | r0 :: _ =>
    match r0 with
    | .front _ =>
      match allFront remote with
      | none => FanOut.fail
      | some fps =>
        match topo.rearPorts.filter (fun rp =>
            fps.any (fun fp => decide (fp.rear_port_id = rp.id))) with
        | [] => FanOut.fail
        | [rp] =>
          if rp.positions > 1 then
            FanOut.next [Termination.rear rp] ((fps.map FrontPort.rear_port_position) :: stack)
          else
            FanOut.next [Termination.rear rp] stack
        | rps =>
          if rps.all (fun rp => decide (rp.positions = 1)) then
            FanOut.next (rps.map Termination.rear) stack
          else
            FanOut.fail
    | .rear _ =>
      match allRear remote with
      | none => FanOut.fail
      | some rps =>
        match rps with
        | [] => FanOut.fail
        | rp0 :: rrest =>
          if rrest ≠ [] ∨ rp0.positions = 1 then
            FanOut.next (frontPortsIn topo (rps.map RearPort.id) [1]) stack
          else
            match stack with
            | ps :: stack' => FanOut.next (frontPortsIn topo [rp0.id] ps) stack'
            | [] => FanOut.split
    | .circuit c0 =>
      match allCircuit remote with
      | none => FanOut.fail
      | some cts =>
        if cts.all (fun ct => decide (ct.term_side = c0.term_side)) then
          match topo.circuitTerms.find? (fun ct =>
              decide (ct.circuit = c0.circuit) &&
              decide (ct.term_side = oppositeSide c0.term_side)) with
          | none => FanOut.circuitBreak []
          | some ct' =>
            if ct'.provider_network.isSome then
              FanOut.circuitBreak
                [[(NodeKind.circuit, ct'.id)], [(NodeKind.provider, ct'.provider_network.getD 0)]]
            else if ct'.site.isSome ∧ topo.link (Termination.circuit ct') = none then
              FanOut.circuitBreak
                [[(NodeKind.circuit, ct'.id)], [(NodeKind.site, ct'.site.getD 0)]]
            else
              FanOut.next [Termination.circuit ct'] stack
        else
          FanOut.fail
    | .iface _ => FanOut.terminal

/-- Steps 4 and 5 of `from_origin`: the far-end termination set of `link` as
seen from `ts` (head `t0`).  For a cable: the CableTermination rows on the
end opposite to the one holding `t0`, resolved to live rows; `none` models
the same-end assertion failing or a dangling row.  For a wireless link: the
other interface. -/
def remoteOf (topo : Topology) (ts : List Termination) (t0 : Termination) (link : Link) :
    Option (List Termination) :=
  match link with
  | .cable c =>
    let endOf : Node → Option CableEnd := fun k =>
      if c.a_terms.any (fun a => decide (a = k)) then some CableEnd.A
      else if c.b_terms.any (fun b => decide (b = k)) then some CableEnd.B
      else none
    match endOf t0.key with
    | none => none
    | some e =>
      if ts.all (fun t => decide (endOf t.key = some e)) then
        resolveAll topo (match e with | CableEnd.A => c.b_terms | CableEnd.B => c.a_terms)
      else none
  | .wireless w =>
    let otherId := if t0.key = (NodeKind.iface, w.interface_a) then w.interface_b else w.interface_a
    (topo.interfaces.find? (fun i => decide (i.id = otherId))).map
      (fun i => [Termination.iface i])

/-- Outcome of one iteration of the `while terminations:` loop body:
crash on an assertion, `return None`, break out of the loop (with the
hop-groups the iteration appended and the final flags), or continue with a
new termination set (carrying the updated active flag and stack). -/
inductive StepOut
  | fail
  | retNone
  | halt (gs : List (List Node)) (is_complete : Bool) (is_active : Bool) (is_split : Bool)
  | next (gs : List (List Node)) (is_active : Bool) (stack : List (List Nat))
      (ts : List Termination)
deriving DecidableEq, Repr

/-- One iteration of the `while terminations:` loop body of `from_origin`.
`pathLen` is the number of hop-groups already recorded (the source tests
`len(path) == 1` right after appending the near-end group, so the test here
is `pathLen + 1 = 1`); `act` is the incoming `is_active`. -/
def step (topo : Topology) (ts : List Termination) (pathLen : Nat)
    (stack : List (List Nat)) (act : Bool) : StepOut :=
  match ts with
  | [] => StepOut.fail
  | t0 :: trest =>
    if trest.all (fun t => decide (t.kind = t0.kind)) then
      if trest.all (fun t => decide (t.parent_object = t0.parent_object)) then
        match topo.link t0 with
        | none =>
          if trest.all (fun t => decide (topo.link t = none)) then
            if pathLen + 1 = 1 then StepOut.retNone
            else StepOut.halt [(t0 :: trest).map object_to_path_node] false act false
          else StepOut.fail
        | some link =>
          if trest.all (fun t => decide (topo.link t = some link)) then
            match remoteOf topo (t0 :: trest) t0 link with
            | none => StepOut.fail
            | some [] => StepOut.fail
            | some (r0 :: rrest) =>
              match fanOut topo (r0 :: rrest) stack with
              | FanOut.fail => StepOut.fail
              | FanOut.terminal =>
                StepOut.halt [(t0 :: trest).map object_to_path_node, [link.toNode],
                    (r0 :: rrest).map object_to_path_node]
                  true (if link.status ≠ LinkStatus.connected then false else act) false
              | FanOut.split =>
                StepOut.halt [(t0 :: trest).map object_to_path_node, [link.toNode],
                    (r0 :: rrest).map object_to_path_node]
                  false (if link.status ≠ LinkStatus.connected then false else act) true
              | FanOut.circuitBreak extra =>
                StepOut.halt ([(t0 :: trest).map object_to_path_node, [link.toNode],
                    (r0 :: rrest).map object_to_path_node] ++ extra)
                  false (if link.status ≠ LinkStatus.connected then false else act) false
              | FanOut.next ts' stack' =>
                StepOut.next [(t0 :: trest).map object_to_path_node, [link.toNode],
                    (r0 :: rrest).map object_to_path_node]
                  (if link.status ≠ LinkStatus.connected then false else act) stack' ts'
          else StepOut.fail
      else StepOut.fail
    else StepOut.fail

/-- Result of `from_origin`: an assertion failure, the source's `return None`,
or a constructed `CablePath`. -/
inductive TraceResult
  | fail
  | retNone
  | path (p : CablePath)
deriving DecidableEq, Repr

/-- The `while terminations:` loop of `from_origin`, with fuel (`none` = fuel
exhausted before the loop halted).  `path`, `stack` and `act` are the
accumulated hop-groups, position stack and `is_active` flag. -/
def from_origin_loop (topo : Topology) :
    Nat → List Termination → List (List Node) → List (List Nat) → Bool → Option TraceResult
  | 0, _, _, _, _ => none
  | fuel + 1, ts, path, stack, act =>
    match ts with
    | [] => some (TraceResult.path ⟨path, false, act, false⟩)
    | _ :: _ =>
      match step topo ts path.length stack act with
      | StepOut.fail => some TraceResult.fail
      | StepOut.retNone => some TraceResult.retNone
      | StepOut.halt gs c a s => some (TraceResult.path ⟨path ++ gs, c, a, s⟩)
      | StepOut.next gs a stack' ts' => from_origin_loop topo fuel ts' (path ++ gs) stack' a

/-- Source `CablePath.from_origin`: trace from the given origin termination set.
`path` starts empty, the position stack empty, `is_complete = is_split =
False` and `is_active = True`, exactly as in the source. -/
def CablePath.from_origin (topo : Topology) (terminations : List Termination) (fuel : Nat) :
    Option TraceResult :=
  from_origin_loop topo fuel terminations [] [] true

/-- Source `CablePath.origins`: the first hop-group resolved to live rows (the
source indexes `self.path[0]`, which raises on an empty path; the claims
only concern produced, non-empty paths). -/
def CablePath.origins (topo : Topology) (p : CablePath) : Option (List Termination) :=
  resolveAll topo (p.path.headD [])

/-- Source `CablePath.destinations`: `[]` when the path is not complete, else the
last hop-group resolved to rows. -/
def CablePath.destinations (topo : Topology) (p : CablePath) : List (Option Termination) :=
  if ¬ p.is_complete then []
  else (p.path.getLastD []).map (path_node_to_object topo)

/-- Source `CablePath.destination_type`: `None` when the path is not complete, else
the content type of the first node of the last hop-group. -/
def CablePath.destination_type (p : CablePath) : Option NodeKind :=
  if ¬ p.is_complete then none
  else ((p.path.getLastD []).head?).map Prod.fst

/-- Source `CablePath.get_cable_ids`: ids of the Cable nodes of the flattened path,
in path order. -/
def CablePath.get_cable_ids (p : CablePath) : List Nat :=
  (flatten_path p.path).filterMap (fun n =>
    if n.1 = NodeKind.cable then some n.2 else none)

/-- Source `CablePath.get_total_length`: the Cable rows of the path that carry an
`_abs_length`, summed (Django's `Sum` aggregate over an empty queryset is
`None`), and the definitive flag `len(cables) == len(cable_ids)`. -/
def CablePath.get_total_length (topo : Topology) (p : CablePath) : Option ℚ × Bool :=
  let cable_ids := p.get_cable_ids
  let cables := topo.cables.filter (fun c =>
    cable_ids.any (fun i => decide (i = c.id)) && c.length.isSome)
  let lengths := cables.filterMap Cable.length
  (if cables.isEmpty then none else some lengths.sum,
   decide (cables.length = cable_ids.length))

/-- Outcome of `CablePath.retrace` on the stored record: the stored row has
been overwritten with the fresh trace (same identity), deleted, or the trace
raised before anything was written. -/
inductive RetraceResult
  | replaced (p : CablePath)
  | deleted
  | error
deriving DecidableEq, Repr

/-- Source `CablePath.retrace`: re-run `from_origin` from the stored path's origins;
a produced path overwrites the stored content under the same identity, a
`None` trace deletes the stored row.  `none` = the inner trace ran out of
fuel. -/
def CablePath.retrace (topo : Topology) (p : CablePath) (fuel : Nat) : Option RetraceResult :=
  match resolveAll topo (p.path.headD []) with
  | none => some RetraceResult.error
  | some origins =>
    match CablePath.from_origin topo origins fuel with
    | none => none
    | some TraceResult.fail => some RetraceResult.error
    | some TraceResult.retNone => some RetraceResult.deleted
    | some (TraceResult.path q) => some (RetraceResult.replaced q)

/-- A stored `CablePath` row: its primary key and its content. -/
structure StoredPath where
  pk : Nat
  content : CablePath
deriving DecidableEq, Repr

/-- The `_path` back-references: for each termination key, the pk of the
`CablePath` it currently points at. -/
abbrev BackRefs := Node → Option Nat

/-- Source `CablePath.save`: after writing the row, set `_path = self.pk` on every
row of the first origin's model whose pk is among the origin ids
(`origin_model.objects.filter(pk__in=origin_ids).update(_path=self.pk)`). -/
def savePath (refs : BackRefs) (sp : StoredPath) : BackRefs :=
  match sp.content.path.headD [] with
  | [] => refs
  | o0 :: orest =>
    fun n =>
      if n.1 = o0.1 ∧ (o0 :: orest).any (fun o => decide (o.2 = n.2)) then some sp.pk
      else refs n

/-- Modelled from the spec: each origin termination "carries a reference to
its current `CablePath` identity, updated whenever that path is
(re)computed or deleted".  The clearing of the `_path` back-reference when a
`CablePath` row is deleted is declared on the origin models (outside
`src/`), not in `cables.py`: deleting the row nulls every back-reference to
its pk. -/
def deletePath (refs : BackRefs) (sp : StoredPath) : BackRefs :=
  fun n => if refs n = some sp.pk then none else refs n

/-- The `retrace` call together with its effect on the stored row and the
back-references: `some (refs, some row)` when the row survives (unchanged on
error, overwritten and re-saved on a fresh trace), `some (refs, none)` when
it is deleted. -/
def retraceState (topo : Topology) (refs : BackRefs) (sp : StoredPath) (fuel : Nat) :
    Option (BackRefs × Option StoredPath) :=
  match CablePath.retrace topo sp.content fuel with
  | none => none
  | some RetraceResult.error => some (refs, some sp)
  | some (RetraceResult.replaced q) =>
    let sp' : StoredPath := ⟨sp.pk, q⟩
    some (savePath refs sp', some sp')
  | some RetraceResult.deleted => some (deletePath refs sp, none)

/-- A node encoding a link (Cable or WirelessLink). -/
def isLinkNode (n : Node) : Bool :=
  decide (n.1 = NodeKind.cable) || decide (n.1 = NodeKind.wireless)

/-- A node encoding a termination object. -/
def isTermNode (n : Node) : Bool :=
  decide (n.1 = NodeKind.iface) || decide (n.1 = NodeKind.front) ||
  decide (n.1 = NodeKind.rear) || decide (n.1 = NodeKind.circuit)

/-- A non-empty hop-group of termination nodes. -/
def isTermGroup (g : List Node) : Bool :=
  !g.isEmpty && g.all isTermNode

/-- A hop-group holding exactly one link node. -/
def isLinkGroup (g : List Node) : Bool :=
  match g with
  | [n] => isLinkNode n
  | _ => false

/-- The two extra hop-groups the circuit cases append: the paired circuit
termination (a singleton termination group) and its provider network or
site (a singleton non-link node group). -/
def tailChk : List (List Node) → Bool
  | [c, e] => isTermGroup c && decide (c.length = 1) &&
      decide (e.length = 1) && !(e.any isLinkNode)
  | _ => false

/-- Shape of a produced hop-group sequence: a run of segments, each a
termination group, a singleton link group and a far-end termination group,
the whole ended either exactly after a segment, after one trailing
termination group (a later hop with no link), or after a segment followed by
the two circuit-break extras. -/
def segChk : List (List Node) → Bool
  | [] => true
  | [t] => isTermGroup t
  | t :: l :: t2 :: rest =>
    isTermGroup t && isLinkGroup l && isTermGroup t2 && (tailChk rest || segChk rest)
  | _ => false

/-- The property C2 ascribes to produced paths: hop-groups strictly
alternating link / non-link, starting with a termination group, every link
group a singleton. -/
def alternatesFrom : Bool → List (List Node) → Bool
  | _, [] => true
  | expectLink, g :: gs =>
    (if expectLink then isLinkGroup g else isTermGroup g) && alternatesFrom (!expectLink) gs

/-- Strict termination/link alternation from a termination group. -/
def alternatesTL (path : List (List Node)) : Bool := alternatesFrom false path

/-- The trace from `ts` halts for some amount of fuel. -/
def TraceHalts (topo : Topology) (ts : List Termination) : Prop :=
  ∃ fuel, (CablePath.from_origin topo ts fuel).isSome

/-- The recorded length of the cable with id `i`, if any. -/
def lengthOfCable (topo : Topology) (i : Nat) : Option ℚ :=
  (topo.cables.find? (fun c => decide (c.id = i))).bind Cable.length

/-- A hop-group triple run: the loop invariant shape of the accumulated path
at the top of each iteration. -/
def tripleRun : List (List Node) → Bool
  | [] => true
  | t :: l :: r :: rest => isTermGroup t && isLinkGroup l && isTermGroup r && tripleRun rest
  | _ => false

/-- A segment triple: near-end termination group, singleton link group,
far-end termination group. -/
def goodTriple (gs : List (List Node)) : Prop :=
  ∃ t l r, gs = [t, l, r] ∧ isTermGroup t = true ∧ isLinkGroup l = true ∧ isTermGroup r = true

/-- The hop-groups a halting iteration appends: a lone termination group, a
full segment, or a segment followed by the circuit-break extras. -/
def goodHalt (gs : List (List Node)) : Prop :=
  (∃ t, gs = [t] ∧ isTermGroup t = true) ∨ goodTriple gs ∨
  (∃ t l r e, gs = t :: l :: r :: e ∧ isTermGroup t = true ∧ isLinkGroup l = true ∧
    isTermGroup r = true ∧ tailChk e = true)

/-!  Concrete fixtures used by the counterexamples and witnesses. -/

/-- The only circuit termination of `topoCirc`: side A of circuit 9,
with no paired Z side. -/
def ctOnlyA : CircuitTermination := ⟨2, 9, TermSide.A, none, none⟩

/-- Interface 1 cabled (connected) to `ctOnlyA`, whose circuit has no Z side. -/
def topoCirc : Topology :=
  ⟨[⟨1, 1⟩], [], [], [ctOnlyA],
   [⟨1, LinkStatus.connected, none, [(NodeKind.iface, 1)], [(NodeKind.circuit, 2)]⟩], []⟩

/-- The path `from_origin` produces on `topoCirc` from interface 1: it halts
at the unpaired circuit termination, incomplete yet still active. -/
def pCirc : CablePath :=
  ⟨[[(NodeKind.iface, 1)], [(NodeKind.cable, 1)], [(NodeKind.circuit, 2)]], false, true, false⟩

/-- Interface 1 — cable 1 — front port 2 | rear port 3 (1 position) —
cable 2 — interface 4: a two-segment complete topology. -/
def topoSeg : Topology :=
  ⟨[⟨1, 1⟩, ⟨4, 3⟩], [⟨2, 2, 3, 1⟩], [⟨3, 2, 1⟩], [],
   [⟨1, LinkStatus.connected, none, [(NodeKind.iface, 1)], [(NodeKind.front, 2)]⟩,
    ⟨2, LinkStatus.connected, none, [(NodeKind.rear, 3)], [(NodeKind.iface, 4)]⟩], []⟩

/-- The path `from_origin` produces on `topoSeg` from interface 1. -/
def pSeg : CablePath :=
  ⟨[[(NodeKind.iface, 1)], [(NodeKind.cable, 1)], [(NodeKind.front, 2)],
    [(NodeKind.rear, 3)], [(NodeKind.cable, 2)], [(NodeKind.iface, 4)]], true, true, false⟩

/-- Front port of the cyclic fixture, paired to rear port 11. -/
def cycFp1 : FrontPort := ⟨1, 1, 11, 1⟩

/-- Front port of the cyclic fixture, paired to rear port 12. -/
def cycFp2 : FrontPort := ⟨2, 2, 12, 1⟩

/-- Rear port 12 of the cyclic fixture (1 position). -/
def cycRp12 : RearPort := ⟨12, 2, 1⟩

/-- A cyclic topology: cable 1 joins the two front ports, cable 2 joins
their rear ports, so the walk FP1 → FP2 → RP12 → RP11 → FP1 never ends. -/
def topoCyc : Topology :=
  ⟨[], [cycFp1, cycFp2], [⟨11, 1, 1⟩, cycRp12], [],
   [⟨1, LinkStatus.connected, none, [(NodeKind.front, 1)], [(NodeKind.front, 2)]⟩,
    ⟨2, LinkStatus.connected, none, [(NodeKind.rear, 11)], [(NodeKind.rear, 12)]⟩], []⟩

/-- A lone unlinked interface: `from_origin` returns `None` from it, and a
stored path whose origin it is gets deleted on retrace. -/
def topoLone : Topology := ⟨[⟨1, 1⟩], [], [], [], [], []⟩

/-- A stored path record whose origin is the unlinked interface of
`topoLone`, under pk 5. -/
def spLone : StoredPath := ⟨5, ⟨[[(NodeKind.iface, 1)]], false, true, false⟩⟩

/-- Fixture for the fan-out witnesses: front port 21 sits at position 3 of
the 4-position rear port 22; front ports 23 and 24 sit at positions 1 and 2
of rear port 22; rear port 25 has a single position served by front
port 26. -/
def topoFan : Topology :=
  ⟨[], [⟨21, 1, 22, 3⟩, ⟨23, 2, 22, 1⟩, ⟨24, 2, 22, 2⟩, ⟨26, 3, 25, 1⟩],
   [⟨22, 2, 4⟩, ⟨25, 3, 1⟩], [], [], []⟩

/-- Fixture for the circuit-hop witnesses: circuit 7 has side A
(termination 31) and side Z (termination 32, attached to provider
network 70); circuit 8 has side A (termination 33) and side Z
(termination 34, at site 80, uncabled); circuit 9 has side A
(termination 35) and a plain cabled side Z (termination 36). -/
def topoCircuits : Topology :=
  ⟨[⟨50, 9⟩, ⟨51, 10⟩], [], [],
   [⟨31, 7, TermSide.A, none, none⟩, ⟨32, 7, TermSide.Z, some 70, none⟩,
    ⟨33, 8, TermSide.A, none, none⟩, ⟨34, 8, TermSide.Z, none, some 80⟩,
    ⟨35, 9, TermSide.A, none, none⟩, ⟨36, 9, TermSide.Z, none, none⟩,
    ⟨37, 10, TermSide.A, none, none⟩],
   [⟨41, LinkStatus.connected, none, [(NodeKind.circuit, 36)], [(NodeKind.iface, 50)]⟩,
    ⟨42, LinkStatus.connected, none, [(NodeKind.iface, 51)], [(NodeKind.circuit, 31)]⟩], []⟩

/-- Fixture for the length witnesses: cables 1 (1.5 m) and 2 (2.5 m), and
cable 3 with no recorded length. -/
def topoLen : Topology :=
  ⟨[], [], [], [],
   [⟨1, LinkStatus.connected, some (3 / 2), [], []⟩,
    ⟨2, LinkStatus.connected, some (5 / 2), [], []⟩,
    ⟨3, LinkStatus.connected, none, [], []⟩], []⟩

/-- A path record crossing cables 1 and 2 of `topoLen`. -/
def pLenFull : CablePath :=
  ⟨[[(NodeKind.iface, 1)], [(NodeKind.cable, 1)], [(NodeKind.iface, 2)],
    [(NodeKind.iface, 2)], [(NodeKind.cable, 2)], [(NodeKind.iface, 3)]], true, true, false⟩

/-- A path record crossing cable 1 and the length-less cable 3 of `topoLen`. -/
def pLenPart : CablePath :=
  ⟨[[(NodeKind.iface, 1)], [(NodeKind.cable, 1)], [(NodeKind.iface, 2)],
    [(NodeKind.iface, 2)], [(NodeKind.cable, 3)], [(NodeKind.iface, 3)]], true, true, false⟩

/-!  Helper lemmas about the trace engine. -/

lemma isTermNode_node (t : Termination) : isTermNode (object_to_path_node t) = true := by
  cases t <;> rfl

lemma isTermNode_not_link {n : Node} (h : isTermNode n = true) : isLinkNode n = false := by
  simp only [isTermNode, Bool.or_eq_true, decide_eq_true_eq] at h
  rcases h with ((h | h) | h) | h <;> simp [isLinkNode, h]

lemma isTermGroup_map (ts : List Termination) (h : ts ≠ []) :
    isTermGroup (ts.map object_to_path_node) = true := by
  cases ts with
  | nil => exact absurd rfl h
  | cons t rest =>
    simp only [isTermGroup, List.map_cons, List.isEmpty_cons, Bool.not_false, Bool.true_and,
      List.all_eq_true]
    intro n hn
    simp only [List.mem_cons, List.mem_map] at hn
    rcases hn with rfl | ⟨t', _, rfl⟩ <;> exact isTermNode_node _

lemma isLinkGroup_toNode (l : Link) : isLinkGroup [l.toNode] = true := by
  cases l <;> rfl

lemma fanOut_break_extra {topo : Topology} {remote : List Termination}
    {stack : List (List Nat)} {extra : List (List Node)}
    (h : fanOut topo remote stack = FanOut.circuitBreak extra) :
    extra = [] ∨ tailChk extra = true := by
  unfold fanOut at h
  repeat' split at h
  all_goals try cases h
  all_goals first
    | exact Or.inl rfl
    | exact Or.inr rfl

lemma step_shape (topo : Topology) (ts : List Termination) (pathLen : Nat)
    (stack : List (List Nat)) (act : Bool) :
    (∀ gs c a s, step topo ts pathLen stack act = StepOut.halt gs c a s →
      goodHalt gs ∧ gs.head? = some (ts.map object_to_path_node)) ∧
    (∀ gs a stack' ts', step topo ts pathLen stack act = StepOut.next gs a stack' ts' →
      goodTriple gs ∧ gs.head? = some (ts.map object_to_path_node)) := by
  constructor
  · intro gs c a s h
    unfold step at h
    repeat' split at h
    all_goals try cases h
    all_goals first
      | exact ⟨Or.inl ⟨_, rfl, isTermGroup_map _ (by simp)⟩, rfl⟩
      | exact ⟨Or.inr (Or.inl ⟨_, _, _, rfl, isTermGroup_map _ (by simp),
          isLinkGroup_toNode _, isTermGroup_map _ (by simp)⟩), rfl⟩
      | (rcases fanOut_break_extra (by assumption) with he | he
         · subst he
           rw [List.append_nil]
           exact ⟨Or.inr (Or.inl ⟨_, _, _, rfl, isTermGroup_map _ (by simp),
             isLinkGroup_toNode _, isTermGroup_map _ (by simp)⟩), rfl⟩
         · exact ⟨Or.inr (Or.inr ⟨_, _, _, _, rfl, isTermGroup_map _ (by simp),
             isLinkGroup_toNode _, isTermGroup_map _ (by simp), he⟩), rfl⟩)
  · intro gs a stack' ts' h
    unfold step at h
    repeat' split at h
    all_goals try cases h
    all_goals exact ⟨⟨_, _, _, rfl, isTermGroup_map _ (by simp),
      isLinkGroup_toNode _, isTermGroup_map _ (by simp)⟩, rfl⟩

lemma tripleRun_append {pre gs : List (List Node)} (hp : tripleRun pre = true)
    (hg : goodTriple gs) : tripleRun (pre ++ gs) = true := by
  obtain ⟨t, l, r, rfl, ht, hl, hr⟩ := hg
  induction pre using tripleRun.induct with
  | case1 => simp [tripleRun, ht, hl, hr]
  | case2 t' l' r' rest ih =>
    simp only [tripleRun, Bool.and_eq_true] at hp
    obtain ⟨⟨⟨ht', hl'⟩, hr'⟩, hrest⟩ := hp
    simp [tripleRun, ht', hl', hr', ih hrest]
  | case3 p h1 h2 => simp [tripleRun.eq_def] at hp

lemma tripleRun_segChk {p : List (List Node)} (h : tripleRun p = true) : segChk p = true := by
  induction p using tripleRun.induct with
  | case1 => rfl
  | case2 t l r rest ih =>
    simp only [tripleRun, Bool.and_eq_true] at h
    obtain ⟨⟨⟨ht, hl⟩, hr⟩, hrest⟩ := h
    simp [segChk, ht, hl, hr, ih hrest]
  | case3 p h1 h2 => simp [tripleRun.eq_def] at h

lemma goodHalt_segChk {gs : List (List Node)} (h : goodHalt gs) : segChk gs = true := by
  rcases h with ⟨t, rfl, ht⟩ | ⟨t, l, r, rfl, ht, hl, hr⟩ | ⟨t, l, r, e, rfl, ht, hl, hr, he⟩
  · simp [segChk, ht]
  · simp [segChk, ht, hl, hr]
  · simp [segChk, ht, hl, hr, he]

lemma segChk_append {pre suf : List (List Node)} (hp : tripleRun pre = true)
    (hs : segChk suf = true) : segChk (pre ++ suf) = true := by
  induction pre using tripleRun.induct with
  | case1 => simpa using hs
  | case2 t l r rest ih =>
    simp only [tripleRun, Bool.and_eq_true] at hp
    obtain ⟨⟨⟨ht, hl⟩, hr⟩, hrest⟩ := hp
    simp [segChk, ht, hl, hr, ih hrest]
  | case3 p h1 h2 => simp [tripleRun.eq_def] at hp

lemma loop_segChk (topo : Topology) :
    ∀ fuel ts path stack act p, tripleRun path = true →
      from_origin_loop topo fuel ts path stack act = some (TraceResult.path p) →
      segChk p.path = true := by
  intro fuel
  induction fuel with
  | zero => intro ts path stack act p _ h; simp [from_origin_loop] at h
  | succ fuel ih =>
    intro ts path stack act p hrun h
    cases ts with
    | nil =>
      simp only [from_origin_loop, Option.some.injEq, TraceResult.path.injEq] at h
      subst h
      exact tripleRun_segChk hrun
    | cons t0 trest =>
      rw [from_origin_loop] at h
      cases hstep : step topo (t0 :: trest) (List.length path) stack act with
      | fail => rw [hstep] at h; cases h
      | retNone => rw [hstep] at h; cases h
      | halt gs c a s =>
        rw [hstep] at h
        simp only [Option.some.injEq, TraceResult.path.injEq] at h
        subst h
        exact segChk_append hrun
          (goodHalt_segChk ((step_shape topo (t0 :: trest) path.length stack act).1 _ _ _ _ hstep).1)
      | next gs a stack' ts' =>
        rw [hstep] at h
        exact ih ts' (path ++ gs) stack' a p
          (tripleRun_append hrun
            ((step_shape topo (t0 :: trest) path.length stack act).2 _ _ _ _ hstep).1) h

lemma loop_prefix (topo : Topology) :
    ∀ fuel ts path stack act p,
      from_origin_loop topo fuel ts path stack act = some (TraceResult.path p) →
      ∃ s, p.path = path ++ s := by
  intro fuel
  induction fuel with
  | zero => intro ts path stack act p h; simp [from_origin_loop] at h
  | succ fuel ih =>
    intro ts path stack act p h
    cases ts with
    | nil =>
      simp only [from_origin_loop, Option.some.injEq, TraceResult.path.injEq] at h
      subst h
      exact ⟨[], (List.append_nil path).symm⟩
    | cons t0 trest =>
      rw [from_origin_loop] at h
      cases hstep : step topo (t0 :: trest) (List.length path) stack act with
      | fail => rw [hstep] at h; cases h
      | retNone => rw [hstep] at h; cases h
      | halt gs c a s =>
        rw [hstep] at h
        simp only [Option.some.injEq, TraceResult.path.injEq] at h
        subst h
        exact ⟨gs, rfl⟩
      | next gs a stack' ts' =>
        rw [hstep] at h
        obtain ⟨s, hs⟩ := ih ts' (path ++ gs) stack' a p h
        exact ⟨gs ++ s, by rw [hs, List.append_assoc]⟩

lemma from_origin_head (topo : Topology) (ts : List Termination) (fuel : Nat) (p : CablePath)
    (h : CablePath.from_origin topo ts fuel = some (TraceResult.path p)) :
    p.path.headD [] = ts.map object_to_path_node := by
  rw [CablePath.from_origin] at h
  cases fuel with
  | zero => simp [from_origin_loop] at h
  | succ fuel =>
    cases ts with
    | nil =>
      simp only [from_origin_loop, Option.some.injEq, TraceResult.path.injEq] at h
      subst h
      rfl
    | cons t0 trest =>
      rw [from_origin_loop] at h
      cases hstep : step topo (t0 :: trest) (List.length ([] : List (List Node))) [] true with
      | fail => rw [hstep] at h; cases h
      | retNone => rw [hstep] at h; cases h
      | halt gs c a s =>
        rw [hstep] at h
        simp only [Option.some.injEq, TraceResult.path.injEq] at h
        subst h
        have hh := ((step_shape topo (t0 :: trest) 0 [] true).1 _ _ _ _ hstep).2
        cases gs with
        | nil => cases hh
        | cons g rest => simpa using hh
      | next gs a stack' ts' =>
        rw [hstep] at h
        obtain ⟨s, hs⟩ := loop_prefix topo fuel ts' ([] ++ gs) stack' a p h
        obtain ⟨⟨t, l, r, rfl, _, _, _⟩, hh⟩ :=
          (step_shape topo (t0 :: trest) 0 [] true).2 _ _ _ _ hstep
        simp only [List.head?_cons, Option.some.injEq] at hh
        rw [hs]
        simpa using hh

lemma loop_mono (topo : Topology) :
    ∀ f₁ f₂ ts path stack act r, f₁ ≤ f₂ →
      from_origin_loop topo f₁ ts path stack act = some r →
      from_origin_loop topo f₂ ts path stack act = some r := by
  intro f₁
  induction f₁ with
  | zero => intro f₂ ts path stack act r _ h; simp [from_origin_loop] at h
  | succ f₁ ih =>
    intro f₂ ts path stack act r hle h
    cases f₂ with
    | zero => exact absurd hle (by omega)
    | succ f₂ =>
      cases ts with
      | nil => exact h
      | cons t0 trest =>
        simp only [from_origin_loop] at h ⊢
        cases hstep : step topo (t0 :: trest) (List.length path) stack act with
        | fail => simp only [hstep] at h ⊢; exact h
        | retNone => simp only [hstep] at h ⊢; exact h
        | halt gs c a s => simp only [hstep] at h ⊢; exact h
        | next gs a stack' ts' =>
          simp only [hstep] at h ⊢
          exact ih f₂ ts' (path ++ gs) stack' a r (by omega) h

lemma node_of_resolve {topo : Topology} {n : Node} {t : Termination}
    (h : path_node_to_object topo n = some t) : object_to_path_node t = n := by
  obtain ⟨k, i⟩ := n
  cases k <;> simp only [path_node_to_object, Option.map_eq_some'] at h <;>
    first
    | (obtain ⟨x, hx, rfl⟩ := h
       have hid := List.find?_some hx
       simp only [decide_eq_true_eq] at hid
       simp [object_to_path_node, hid])
    | cases h

lemma resolveAll_map_node {topo : Topology} : ∀ {ts : List Termination},
    (∀ t ∈ ts, path_node_to_object topo (object_to_path_node t) = some t) →
    resolveAll topo (ts.map object_to_path_node) = some ts := by
  intro ts
  induction ts with
  | nil => intro _; rfl
  | cons t rest ih =>
    intro h
    simp only [List.map_cons, resolveAll]
    rw [h t (by simp), ih (fun x hx => h x (by simp [hx]))]

lemma isTermGroup_no_link {g : List Node} (h : isTermGroup g = true) :
    g.any isLinkNode = false := by
  simp only [isTermGroup, Bool.and_eq_true, List.all_eq_true] at h
  simp only [List.any_eq_false]
  intro n hn
  simp [isTermNode_not_link (h.2 n hn)]

lemma isLinkGroup_length {g : List Node} (h : isLinkGroup g = true) : g.length = 1 := by
  cases g with
  | nil => cases h
  | cons n rest => cases rest with
    | nil => rfl
    | cons m r => cases h

lemma segChk_links {p : List (List Node)} (h : segChk p = true) :
    ∀ g ∈ p, g.any isLinkNode = true → g.length = 1 := by
  induction p using segChk.induct with
  | case1 => intro g hg; cases hg
  | case2 t =>
    intro g hg hl
    simp only [List.mem_singleton] at hg
    subst hg
    simp only [segChk] at h
    rw [isTermGroup_no_link h] at hl
    cases hl
  | case3 t l t2 rest ih =>
    simp only [segChk, Bool.and_eq_true, Bool.or_eq_true] at h
    obtain ⟨⟨⟨ht, hl⟩, ht2⟩, hrest⟩ := h
    intro g hg hlg
    simp only [List.mem_cons] at hg
    rcases hg with rfl | rfl | rfl | hg
    · rw [isTermGroup_no_link ht] at hlg; cases hlg
    · exact isLinkGroup_length hl
    · rw [isTermGroup_no_link ht2] at hlg; cases hlg
    · rcases hrest with htail | hseg
      · cases rest with
        | nil => cases hg
        | cons c erest =>
          cases erest with
          | nil => simp [tailChk] at htail
          | cons e r2 =>
            cases r2 with
            | nil =>
              simp only [tailChk, Bool.and_eq_true, decide_eq_true_eq] at htail
              simp only [List.mem_cons, List.not_mem_nil, or_false] at hg
              rcases hg with rfl | rfl
              · exact htail.1.1.2
              · exact htail.1.2
            | cons z r3 => simp [tailChk] at htail
      · exact ih hseg g hg hlg
  | case4 p h1 h2 h3 =>
    exfalso
    rcases p with _ | ⟨a, _ | ⟨b, _ | ⟨c, d⟩⟩⟩
    · simp_all
    · simp_all
    · rw [segChk.eq_def] at h; simp at h
    · exact h3 a b c d rfl

/-- C1: on `topoCirc` (interface cabled, with a connected cable, to a circuit
termination whose circuit has no far side) `from_origin` halts incomplete yet
leaves `is_active = true`, although every cable crossed is "connected": the
code violates the claim (and the class docstring) that an active path needs a
destination; `is_active` is never forced false by `is_complete = false`. -/
theorem c1_incomplete_yet_active :
    CablePath.from_origin topoCirc [Termination.iface ⟨1, 1⟩] 5 = some (TraceResult.path pCirc) ∧
    pCirc.is_active = true ∧ pCirc.is_complete = false ∧
    topoCirc.cables.all (fun c => decide (c.status = LinkStatus.connected)) = true :=
  ⟨rfl, rfl, rfl, rfl⟩

/-- C2 counterexample: the two-segment path traced on `topoSeg` does not
strictly alternate termination/link hop-groups (its far-end group is
immediately followed by the next near-end group), refuting the claimed
alternation invariant on a concrete produced path. -/
theorem c2_alternation_counterexample :
    CablePath.from_origin topoSeg [Termination.iface ⟨1, 1⟩] 5 = some (TraceResult.path pSeg) ∧
    alternatesTL pSeg.path = false :=
  ⟨rfl, rfl⟩

/-- C2 amended: every produced path is a run of three-group segments
(near-end termination group, singleton link group, far-end termination
group), optionally ending with a lone trailing termination group or the two
circuit-break extras; it starts with a termination group, and every
hop-group holding a link node holds exactly one node. -/
theorem c2_segment_structure (topo : Topology) (ts : List Termination) (fuel : Nat)
    (p : CablePath) (h : CablePath.from_origin topo ts fuel = some (TraceResult.path p)) :
    segChk p.path = true ∧ ∀ g ∈ p.path, g.any isLinkNode = true → g.length = 1 := by
  have hs := loop_segChk topo fuel ts [] [] true p rfl h
  exact ⟨hs, segChk_links hs⟩

/-- Witness for C2's amended theorem at the concrete `topoSeg` trace. -/
theorem c2_segment_structure_witness :
    segChk pSeg.path = true ∧ ∀ g ∈ pSeg.path, g.any isLinkNode = true → g.length = 1 :=
  c2_segment_structure topoSeg [Termination.iface ⟨1, 1⟩] 5 pSeg rfl

lemma cyc_loop_none :
    ∀ fuel path stack act,
      from_origin_loop topoCyc fuel [Termination.front cycFp1] path stack act = none ∧
      from_origin_loop topoCyc fuel [Termination.rear cycRp12] path stack act = none := by
  intro fuel
  induction fuel with
  | zero => intro path stack act; exact ⟨rfl, rfl⟩
  | succ fuel ih =>
    intro path stack act
    refine ⟨?_, ?_⟩
    · exact (ih (path ++ [[(NodeKind.front, 1)], [(NodeKind.cable, 1)], [(NodeKind.front, 2)]])
        stack act).2
    · exact (ih (path ++ [[(NodeKind.rear, 12)], [(NodeKind.cable, 2)], [(NodeKind.rear, 11)]])
        stack act).1

/-- C3 counterexample: on the cyclic `topoCyc` the hop loop never halts — no
amount of fuel produces a result, so there is no hop-count ceiling and no
`InfiniteLoopError`; the code simply loops forever. -/
theorem c3_cycle_never_halts : ¬ TraceHalts topoCyc [Termination.front cycFp1] := by
  rintro ⟨fuel, hs⟩
  rw [CablePath.from_origin, (cyc_loop_none fuel [] [] true).1] at hs
  cases hs

/-- C3 amended: `from_origin` has no hop-count ceiling of its own — the only
bound is the external fuel, and any result reached under some fuel is stable
under every larger fuel; on a cyclic topology the loop never halts
(`c3_cycle_never_halts`). -/
theorem c3_fuel_monotone (topo : Topology) (ts : List Termination) (f₁ f₂ : Nat)
    (r : TraceResult) (hle : f₁ ≤ f₂) (h : CablePath.from_origin topo ts f₁ = some r) :
    CablePath.from_origin topo ts f₂ = some r :=
  loop_mono topo f₁ f₂ ts [] [] true r hle h

/-- Witness for C3's amended theorem: the `topoCirc` trace result at fuel 5
is unchanged at fuel 9. -/
theorem c3_fuel_monotone_witness :
    CablePath.from_origin topoCirc [Termination.iface ⟨1, 1⟩] 9 =
      some (TraceResult.path pCirc) :=
  c3_fuel_monotone topoCirc [Termination.iface ⟨1, 1⟩] 5 9 (TraceResult.path pCirc)
    (by omega) rfl

/-- C10: an incomplete path (split paths and halted traces included) exposes
no destinations and no destination type, whatever its final hop-group holds. -/
theorem c10_incomplete_no_destination (topo : Topology) (p : CablePath)
    (h : p.is_complete = false) :
    p.destinations topo = [] ∧ p.destination_type = none := by
  constructor
  · simp [CablePath.destinations, h]
  · simp [CablePath.destination_type, h]

/-- Witness for C10 on a concrete incomplete record with a non-empty final
hop-group. -/
theorem c10_incomplete_no_destination_witness :
    CablePath.destinations topoLone ⟨[[(NodeKind.iface, 1)]], false, true, false⟩ = [] ∧
    CablePath.destination_type ⟨[[(NodeKind.iface, 1)]], false, true, false⟩ = none :=
  c10_incomplete_no_destination topoLone ⟨[[(NodeKind.iface, 1)]], false, true, false⟩ rfl

/-- C6: a homogeneous origin set with no attached link yields `None`
(`retNone`), and a later hop whose homogeneous termination set has no
attached link halts the trace there, appending only that termination group,
with `is_complete = false`. -/
theorem c6_no_link_handling (topo : Topology) :
    (∀ (t0 : Termination) (trest : List Termination) (fuel : Nat),
      (∀ t ∈ trest, t.kind = t0.kind) →
      (∀ t ∈ trest, t.parent_object = t0.parent_object) →
      (∀ t ∈ t0 :: trest, topo.link t = none) →
      CablePath.from_origin topo (t0 :: trest) (fuel + 1) = some TraceResult.retNone) ∧
    (∀ (t0 : Termination) (trest : List Termination) (fuel : Nat)
        (path : List (List Node)) (stack : List (List Nat)) (act : Bool), path ≠ [] →
      (∀ t ∈ trest, t.kind = t0.kind) →
      (∀ t ∈ trest, t.parent_object = t0.parent_object) →
      (∀ t ∈ t0 :: trest, topo.link t = none) →
      from_origin_loop topo (fuel + 1) (t0 :: trest) path stack act =
        some (TraceResult.path
          ⟨path ++ [(t0 :: trest).map object_to_path_node], false, act, false⟩)) := by
  have hstep : ∀ (t0 : Termination) (trest : List Termination) (pathLen : Nat)
      (stack : List (List Nat)) (act : Bool),
      (∀ t ∈ trest, t.kind = t0.kind) →
      (∀ t ∈ trest, t.parent_object = t0.parent_object) →
      (∀ t ∈ t0 :: trest, topo.link t = none) →
      step topo (t0 :: trest) pathLen stack act =
        (if pathLen + 1 = 1 then StepOut.retNone
         else StepOut.halt [(t0 :: trest).map object_to_path_node] false act false) := by
    intro t0 trest pathLen stack act hk hp hl
    have h1 : (trest.all fun t => decide (t.kind = t0.kind)) = true := by
      simp only [List.all_eq_true, decide_eq_true_eq]; exact hk
    have h2 : (trest.all fun t => decide (t.parent_object = t0.parent_object)) = true := by
      simp only [List.all_eq_true, decide_eq_true_eq]; exact hp
    have h3 : (trest.all fun t => decide (topo.link t = none)) = true := by
      simp only [List.all_eq_true, decide_eq_true_eq]
      exact fun t ht => hl t (by simp [ht])
    have h0 : topo.link t0 = none := hl t0 (by simp)
    simp only [step]
    rw [h0]
    simp [h1, h2, h3]
  constructor
  · intro t0 trest fuel hk hp hl
    rw [CablePath.from_origin, from_origin_loop]
    rw [hstep t0 trest (List.length ([] : List (List Node))) [] true hk hp hl]
    rfl
  · intro t0 trest fuel path stack act hpne hk hp hl
    rw [from_origin_loop]
    rw [hstep t0 trest path.length stack act hk hp hl]
    have hlen : ¬ (path.length + 1 = 1) := by
      intro hx
      exact hpne (List.length_eq_zero.mp (by omega))
    rw [if_neg hlen]

/-- Witness for C6 on `topoLone`: the lone unlinked interface traces to
`None`, and the same set at a later hop halts incomplete. -/
theorem c6_no_link_handling_witness :
    CablePath.from_origin topoLone [Termination.iface ⟨1, 1⟩] 1 = some TraceResult.retNone ∧
    from_origin_loop topoLone 1 [Termination.iface ⟨1, 1⟩] [[(NodeKind.rear, 3)]] [] true =
      some (TraceResult.path
        ⟨[[(NodeKind.rear, 3)], [(NodeKind.iface, 1)]], false, true, false⟩) :=
  ⟨(c6_no_link_handling topoLone).1 (Termination.iface ⟨1, 1⟩) [] 0
      (by simp) (by simp) (by intro t ht; simp at ht; subst ht; rfl),
   (c6_no_link_handling topoLone).2 (Termination.iface ⟨1, 1⟩) [] 0 [[(NodeKind.rear, 3)]] [] true
      (by simp) (by simp) (by simp) (by intro t ht; simp at ht; subst ht; rfl)⟩

/-- C7: `retrace` replaces the stored content wholesale with the fresh trace
— retracing a freshly produced path under an unchanged topology yields the
identical record (same identity, same hop-groups, same flags, nothing
stale kept) — and deletes the stored row when the re-run trace yields
`None`. -/
theorem c7_retrace_idempotent (topo : Topology) :
    (∀ (ts : List Termination) (fuel : Nat) (p : CablePath),
      CablePath.from_origin topo ts fuel = some (TraceResult.path p) →
      (∀ t ∈ ts, path_node_to_object topo (object_to_path_node t) = some t) →
      CablePath.retrace topo p fuel = some (RetraceResult.replaced p)) ∧
    (∀ (p : CablePath) (origins : List Termination) (fuel : Nat),
      resolveAll topo (p.path.headD []) = some origins →
      CablePath.from_origin topo origins fuel = some TraceResult.retNone →
      CablePath.retrace topo p fuel = some RetraceResult.deleted) := by
  constructor
  · intro ts fuel p h hres
    have hhead := from_origin_head topo ts fuel p h
    rw [CablePath.retrace, hhead, resolveAll_map_node hres]
    simp [h]
  · intro p origins fuel h1 h2
    rw [CablePath.retrace, h1]
    simp [h2]

/-- Witness for C7: retracing the fresh `topoSeg` trace reproduces it
byte-identically, and retracing a stored path whose origin is unlinked
deletes it. -/
theorem c7_retrace_idempotent_witness :
    CablePath.retrace topoSeg pSeg 5 = some (RetraceResult.replaced pSeg) ∧
    CablePath.retrace topoLone ⟨[[(NodeKind.iface, 1)]], false, true, false⟩ 1 =
      some RetraceResult.deleted :=
  ⟨(c7_retrace_idempotent topoSeg).1 [Termination.iface ⟨1, 1⟩] 5 pSeg rfl
      (by intro t ht; simp at ht; subst ht; rfl),
   (c7_retrace_idempotent topoLone).2 ⟨[[(NodeKind.iface, 1)]], false, true, false⟩
      [Termination.iface ⟨1, 1⟩] 1 rfl rfl⟩

/-- C8: `save` stamps the path's pk on the back-reference of every origin
row (first hop-group, matching model and ids); a retrace that deletes the
stored path leaves no back-reference to the deleted pk anywhere; and a
retrace that replaces keeps the same identity. -/
theorem c8_backref_maintenance :
    (∀ (refs : BackRefs) (sp : StoredPath) (o0 : Node) (orest : List Node) (n : Node),
      sp.content.path.headD [] = o0 :: orest → n ∈ o0 :: orest → n.1 = o0.1 →
      savePath refs sp n = some sp.pk) ∧
    (∀ (topo : Topology) (refs : BackRefs) (sp : StoredPath) (fuel : Nat) (refs' : BackRefs),
      retraceState topo refs sp fuel = some (refs', none) → ∀ n, refs' n ≠ some sp.pk) ∧
    (∀ (topo : Topology) (refs : BackRefs) (sp : StoredPath) (fuel : Nat)
        (refs' : BackRefs) (sp' : StoredPath),
      retraceState topo refs sp fuel = some (refs', some sp') → sp'.pk = sp.pk) := by
  refine ⟨?_, ?_, ?_⟩
  · intro refs sp o0 orest n hhead hn hk
    unfold savePath
    rw [hhead]
    have hany : ((o0 :: orest).any fun o => decide (o.2 = n.2)) = true := by
      simp only [List.any_eq_true]
      exact ⟨n, hn, by simp⟩
    simp [hk, hany]
  · intro topo refs sp fuel refs' h n
    unfold retraceState at h
    cases hr : CablePath.retrace topo sp.content fuel with
    | none => rw [hr] at h; cases h
    | some res =>
      rw [hr] at h
      cases res with
      | error => simp at h
      | replaced q => simp at h
      | deleted =>
        simp only [Option.some.injEq, Prod.mk.injEq] at h
        rw [← h.1]
        unfold deletePath
        split
        · simp
        · simpa using (by assumption)
  · intro topo refs sp fuel refs' sp' h
    unfold retraceState at h
    cases hr : CablePath.retrace topo sp.content fuel with
    | none => rw [hr] at h; cases h
    | some res =>
      rw [hr] at h
      cases res with
      | error =>
        simp only [Option.some.injEq, Prod.mk.injEq] at h
        rw [← h.2]
      | replaced q =>
        simp only [Option.some.injEq, Prod.mk.injEq] at h
        rw [← h.2]
      | deleted => simp at h

/-- Witness for C8 on `spLone` over `topoLone`: saving stamps pk 5 on the
origin's back-reference, and the deleting retrace leaves the origin no
longer referencing pk 5. -/
theorem c8_backref_maintenance_witness :
    savePath (fun _ => none) spLone (NodeKind.iface, 1) = some 5 ∧
    deletePath (fun _ => none) spLone (NodeKind.iface, 1) ≠ some 5 :=
  ⟨c8_backref_maintenance.1 (fun _ => none) spLone (NodeKind.iface, 1) []
      (NodeKind.iface, 1) rfl (by simp) rfl,
   c8_backref_maintenance.2.1 topoLone (fun _ => none) spLone 1
      (deletePath (fun _ => none) spLone) rfl (NodeKind.iface, 1)⟩

lemma allFront_map (fps : List FrontPort) :
    allFront (fps.map Termination.front) = some fps := by
  induction fps with
  | nil => rfl
  | cons f rest ih => simp [allFront, ih]

lemma allRear_map (rps : List RearPort) :
    allRear (rps.map Termination.rear) = some rps := by
  induction rps with
  | nil => rfl
  | cons r rest ih => simp [allRear, ih]

lemma allCircuit_map (cts : List CircuitTermination) :
    allCircuit (cts.map Termination.circuit) = some cts := by
  induction cts with
  | nil => rfl
  | cons c rest ih => simp [allCircuit, ih]

/-- C4: the position-stack discipline of step 6.  FrontPorts resolving to a
single multi-position RearPort push their position indices and continue with
that RearPort; a single multi-position RearPort pops the stack when it is
non-empty and halts split when it is empty; several RearPorts, or a single
one-position RearPort, continue with the FrontPorts at position 1. -/
theorem c4_position_stack (topo : Topology) :
    (∀ (fps : List FrontPort) (rp : RearPort) (stack : List (List Nat)),
      fps ≠ [] →
      topo.rearPorts.filter
        (fun r => fps.any (fun fp => decide (fp.rear_port_id = r.id))) = [rp] →
      rp.positions > 1 →
      fanOut topo (fps.map Termination.front) stack =
        FanOut.next [Termination.rear rp] ((fps.map FrontPort.rear_port_position) :: stack)) ∧
    (∀ (rp : RearPort) (ps : List Nat) (stack : List (List Nat)),
      rp.positions > 1 →
      fanOut topo [Termination.rear rp] (ps :: stack) =
        FanOut.next (frontPortsIn topo [rp.id] ps) stack) ∧
    (∀ rp : RearPort, rp.positions > 1 →
      fanOut topo [Termination.rear rp] [] = FanOut.split) ∧
    (∀ (rps : List RearPort) (stack : List (List Nat)),
      (rps.length > 1 ∨ ∃ rp, rps = [rp] ∧ rp.positions = 1) →
      fanOut topo (rps.map Termination.rear) stack =
        FanOut.next (frontPortsIn topo (rps.map RearPort.id) [1]) stack) := by
  refine ⟨?_, ?_, ?_, ?_⟩
  · intro fps rp stack hne hfilter hpos
    obtain ⟨f, frest, rfl⟩ : ∃ f frest, fps = f :: frest := by
      cases fps with
      | nil => exact absurd rfl hne
      | cons a b => exact ⟨a, b, rfl⟩
    simp only [List.map_cons, fanOut, allFront, allFront_map, Option.map_some']
    rw [hfilter]
    simp [hpos]
  · intro rp ps stack hpos
    have hcond : ¬(([] : List RearPort) ≠ [] ∨ rp.positions = 1) := by
      simp
      omega
    simp only [fanOut, allRear, Option.map_some']
    rw [if_neg hcond]
  · intro rp hpos
    have hcond : ¬(([] : List RearPort) ≠ [] ∨ rp.positions = 1) := by
      simp
      omega
    simp only [fanOut, allRear, Option.map_some']
    rw [if_neg hcond]
  · intro rps stack hcase
    rcases hcase with hlong | ⟨rp, rfl, hone⟩
    · obtain ⟨a, b, brest, rfl⟩ : ∃ a b brest, rps = a :: b :: brest := by
        cases rps with
        | nil => simp at hlong
        | cons a rest =>
          cases rest with
          | nil => simp at hlong
          | cons b brest => exact ⟨a, b, brest, rfl⟩
      have hcond : (b :: brest : List RearPort) ≠ [] ∨ a.positions = 1 := Or.inl (by simp)
      simp only [List.map_cons, fanOut, allRear, allRear_map, Option.map_some']
      rw [if_pos hcond]
    · have hcond : (([] : List RearPort) ≠ [] ∨ rp.positions = 1) := Or.inr hone
      simp only [List.map_cons, List.map_nil, fanOut, allRear, Option.map_some']
      rw [if_pos hcond]

/-- Witness for C4 on `topoFan`: push onto the stack at the 4-position rear
port 22, pop on the way out, split when the stack is empty, and take
position 1 at the single-position rear port 25. -/
theorem c4_position_stack_witness :
    fanOut topoFan [Termination.front ⟨21, 1, 22, 3⟩] [] =
      FanOut.next [Termination.rear ⟨22, 2, 4⟩] [[3]] ∧
    fanOut topoFan [Termination.rear ⟨22, 2, 4⟩] [[3]] =
      FanOut.next (frontPortsIn topoFan [22] [3]) [] ∧
    fanOut topoFan [Termination.rear ⟨22, 2, 4⟩] [] = FanOut.split ∧
    fanOut topoFan [Termination.rear ⟨25, 3, 1⟩] [] =
      FanOut.next (frontPortsIn topoFan [25] [1]) [] :=
  ⟨(c4_position_stack topoFan).1 [⟨21, 1, 22, 3⟩] ⟨22, 2, 4⟩ [] (by simp) rfl (by decide),
   (c4_position_stack topoFan).2.1 ⟨22, 2, 4⟩ [3] [] (by decide),
   (c4_position_stack topoFan).2.2.1 ⟨22, 2, 4⟩ (by decide),
   (c4_position_stack topoFan).2.2.2 [⟨25, 3, 1⟩] [] (Or.inr ⟨⟨25, 3, 1⟩, rfl, rfl⟩)⟩

/-- C5: circuit-termination hops.  With the far-end set all on one circuit
side, the opposite-side termination is looked up: none halts the trace
(`is_complete` stays false), a provider-network pairing appends the paired
termination and the provider network and halts, a site-with-no-cable pairing
appends the paired termination and the site and halts, and otherwise the
walk continues with the paired termination; the loop conjunct shows the
halt is recorded with `is_complete = false` and the extras appended. -/
theorem c5_circuit_hops (topo : Topology) :
    (∀ (c0 : CircuitTermination) (crest : List CircuitTermination) (stack : List (List Nat)),
      ((c0 :: crest).all fun ct => decide (ct.term_side = c0.term_side)) = true →
      topo.circuitTerms.find? (fun ct => decide (ct.circuit = c0.circuit) &&
        decide (ct.term_side = oppositeSide c0.term_side)) = none →
      fanOut topo ((c0 :: crest).map Termination.circuit) stack = FanOut.circuitBreak []) ∧
    (∀ (c0 : CircuitTermination) (crest : List CircuitTermination) (stack : List (List Nat))
        (ct' : CircuitTermination) (pn : Nat),
      ((c0 :: crest).all fun ct => decide (ct.term_side = c0.term_side)) = true →
      topo.circuitTerms.find? (fun ct => decide (ct.circuit = c0.circuit) &&
        decide (ct.term_side = oppositeSide c0.term_side)) = some ct' →
      ct'.provider_network = some pn →
      fanOut topo ((c0 :: crest).map Termination.circuit) stack =
        FanOut.circuitBreak [[(NodeKind.circuit, ct'.id)], [(NodeKind.provider, pn)]]) ∧
    (∀ (c0 : CircuitTermination) (crest : List CircuitTermination) (stack : List (List Nat))
        (ct' : CircuitTermination) (st : Nat),
      ((c0 :: crest).all fun ct => decide (ct.term_side = c0.term_side)) = true →
      topo.circuitTerms.find? (fun ct => decide (ct.circuit = c0.circuit) &&
        decide (ct.term_side = oppositeSide c0.term_side)) = some ct' →
      ct'.provider_network = none → ct'.site = some st →
      topo.link (Termination.circuit ct') = none →
      fanOut topo ((c0 :: crest).map Termination.circuit) stack =
        FanOut.circuitBreak [[(NodeKind.circuit, ct'.id)], [(NodeKind.site, st)]]) ∧
    (∀ (c0 : CircuitTermination) (crest : List CircuitTermination) (stack : List (List Nat))
        (ct' : CircuitTermination),
      ((c0 :: crest).all fun ct => decide (ct.term_side = c0.term_side)) = true →
      topo.circuitTerms.find? (fun ct => decide (ct.circuit = c0.circuit) &&
        decide (ct.term_side = oppositeSide c0.term_side)) = some ct' →
      ct'.provider_network = none →
      (ct'.site = none ∨ topo.link (Termination.circuit ct') ≠ none) →
      fanOut topo ((c0 :: crest).map Termination.circuit) stack =
        FanOut.next [Termination.circuit ct'] stack) ∧
    (∀ (fuel : Nat) (t0 : Termination) (trest : List Termination) (path : List (List Node))
        (stack : List (List Nat)) (act : Bool) (link : Link) (r0 : Termination)
        (rrest : List Termination) (extra : List (List Node)),
      (trest.all fun t => decide (t.kind = t0.kind)) = true →
      (trest.all fun t => decide (t.parent_object = t0.parent_object)) = true →
      topo.link t0 = some link →
      (trest.all fun t => decide (topo.link t = some link)) = true →
      remoteOf topo (t0 :: trest) t0 link = some (r0 :: rrest) →
      fanOut topo (r0 :: rrest) stack = FanOut.circuitBreak extra →
      from_origin_loop topo (fuel + 1) (t0 :: trest) path stack act =
        some (TraceResult.path
          ⟨path ++ ([(t0 :: trest).map object_to_path_node, [link.toNode],
              (r0 :: rrest).map object_to_path_node] ++ extra),
           false, (if link.status ≠ LinkStatus.connected then false else act), false⟩)) := by
  refine ⟨?_, ?_, ?_, ?_, ?_⟩
  · intro c0 crest stack hall hfind
    simp only [List.map_cons, fanOut, allCircuit, allCircuit_map, Option.map_some']
    rw [if_pos hall, hfind]
  · intro c0 crest stack ct' pn hall hfind hpn
    simp only [List.map_cons, fanOut, allCircuit, allCircuit_map, Option.map_some']
    rw [if_pos hall, hfind]
    simp [hpn]
  · intro c0 crest stack ct' st hall hfind hpn hst hnc
    simp only [List.map_cons, fanOut, allCircuit, allCircuit_map, Option.map_some']
    rw [if_pos hall, hfind]
    simp [hpn, hst, hnc]
  · intro c0 crest stack ct' hall hfind hpn hrest
    simp only [List.map_cons, fanOut, allCircuit, allCircuit_map, Option.map_some']
    rw [if_pos hall, hfind]
    rcases hrest with hst | hnc
    · simp [hpn, hst]
    · simp [hpn, hnc]
  · intro fuel t0 trest path stack act link r0 rrest extra h1 h2 hlink h3 hremote hfan
    have hstep : step topo (t0 :: trest) path.length stack act =
        StepOut.halt ([(t0 :: trest).map object_to_path_node, [link.toNode],
            (r0 :: rrest).map object_to_path_node] ++ extra)
          false (if link.status ≠ LinkStatus.connected then false else act) false := by
      simp only [step]
      rw [hlink]
      simp [h1, h2, h3, hremote, hfan]
    rw [from_origin_loop, hstep]

/-- Witness for C5 on `topoCircuits`: the unpaired side 37 breaks bare; side
31 pairs to the provider-network side 32; side 33 pairs to the uncabled site
side 34; side 35 continues with the cabled side 36; and the full trace from
interface 51 halts with the extras appended and `is_complete = false`. -/
theorem c5_circuit_hops_witness :
    fanOut topoCircuits [Termination.circuit ⟨37, 10, TermSide.A, none, none⟩] [] =
      FanOut.circuitBreak [] ∧
    fanOut topoCircuits [Termination.circuit ⟨31, 7, TermSide.A, none, none⟩] [] =
      FanOut.circuitBreak [[(NodeKind.circuit, 32)], [(NodeKind.provider, 70)]] ∧
    fanOut topoCircuits [Termination.circuit ⟨33, 8, TermSide.A, none, none⟩] [] =
      FanOut.circuitBreak [[(NodeKind.circuit, 34)], [(NodeKind.site, 80)]] ∧
    fanOut topoCircuits [Termination.circuit ⟨35, 9, TermSide.A, none, none⟩] [] =
      FanOut.next [Termination.circuit ⟨36, 9, TermSide.Z, none, none⟩] [] ∧
    from_origin_loop topoCircuits 1 [Termination.iface ⟨51, 10⟩] [] [] true =
      some (TraceResult.path
        ⟨[[(NodeKind.iface, 51)], [(NodeKind.cable, 42)], [(NodeKind.circuit, 31)],
          [(NodeKind.circuit, 32)], [(NodeKind.provider, 70)]], false, true, false⟩) :=
  ⟨(c5_circuit_hops topoCircuits).1 ⟨37, 10, TermSide.A, none, none⟩ [] [] rfl rfl,
   (c5_circuit_hops topoCircuits).2.1 ⟨31, 7, TermSide.A, none, none⟩ [] []
     ⟨32, 7, TermSide.Z, some 70, none⟩ 70 rfl rfl rfl,
   (c5_circuit_hops topoCircuits).2.2.1 ⟨33, 8, TermSide.A, none, none⟩ [] []
     ⟨34, 8, TermSide.Z, none, some 80⟩ 80 rfl rfl rfl rfl rfl,
   (c5_circuit_hops topoCircuits).2.2.2.1 ⟨35, 9, TermSide.A, none, none⟩ [] []
     ⟨36, 9, TermSide.Z, none, none⟩ rfl rfl rfl (Or.inl rfl),
   by
    simpa using (c5_circuit_hops topoCircuits).2.2.2.2 0 (Termination.iface ⟨51, 10⟩) [] [] []
      true (Link.cable ⟨42, LinkStatus.connected, none,
        [(NodeKind.iface, 51)], [(NodeKind.circuit, 31)]⟩)
      (Termination.circuit ⟨31, 7, TermSide.A, none, none⟩) []
      [[(NodeKind.circuit, 32)], [(NodeKind.provider, 70)]] rfl rfl rfl rfl rfl rfl⟩

lemma find_id_eq {cs : List Cable} (hn : (cs.map Cable.id).Nodup) {c : Cable} (hc : c ∈ cs) :
    cs.find? (fun c' => decide (c'.id = c.id)) = some c := by
  induction cs with
  | nil => cases hc
  | cons d rest ih =>
    simp only [List.map_cons, List.nodup_cons] at hn
    rcases List.mem_cons.mp hc with rfl | hcr
    · simp [List.find?]
    · have hne : d.id ≠ c.id := by
        intro he
        exact hn.1 (he ▸ List.mem_map_of_mem Cable.id hcr)
      have hd : (decide (d.id = c.id)) = false := by simp [hne]
      simp only [List.find?, hd]
      exact ih hn.2 hcr

lemma find_id_mem {cs : List Cable} {i : Nat} {c : Cable}
    (h : cs.find? (fun c' => decide (c'.id = i)) = some c) : c ∈ cs ∧ c.id = i :=
  ⟨List.mem_of_find?_eq_some h, by simpa using List.find?_some h⟩

lemma filterMap_rec_length (topo : Topology) : ∀ ids : List Nat,
    (∀ i ∈ ids, ∃ c, topo.cables.find? (fun c' => decide (c'.id = i)) = some c) →
    (((ids.filterMap (fun i =>
        (topo.cables.find? (fun c' => decide (c'.id = i))).filter
          (fun c' => c'.length.isSome))).length = ids.length) ↔
      ∀ i ∈ ids, (lengthOfCable topo i).isSome = true) := by
  intro ids
  induction ids with
  | nil => intro _; simp
  | cons i rest ih =>
    intro h
    obtain ⟨c, hfind⟩ := h i (by simp)
    have hrest := ih (fun j hj => h j (by simp [hj]))
    have hlen : lengthOfCable topo i = c.length := by
      simp [lengthOfCable, hfind]
    by_cases hs : c.length.isSome = true
    · have hcons : ((i :: rest).filterMap (fun i =>
          (topo.cables.find? (fun c' => decide (c'.id = i))).filter
            (fun c' => c'.length.isSome))) =
          c :: (rest.filterMap (fun i =>
            (topo.cables.find? (fun c' => decide (c'.id = i))).filter
              (fun c' => c'.length.isSome))) := by
        simp [List.filterMap_cons, hfind, Option.filter, hs]
      rw [hcons, List.length_cons, List.length_cons, Nat.add_right_cancel_iff, hrest]
      constructor
      · intro hall j hj
        rcases List.mem_cons.mp hj with rfl | hjr
        · rw [hlen]; exact hs
        · exact hall j hjr
      · intro hall j hj
        exact hall j (by simp [hj])
    · have hs' : c.length.isSome = false := by simpa using hs
      have hcons : ((i :: rest).filterMap (fun i =>
          (topo.cables.find? (fun c' => decide (c'.id = i))).filter
            (fun c' => c'.length.isSome))) =
          rest.filterMap (fun i =>
            (topo.cables.find? (fun c' => decide (c'.id = i))).filter
              (fun c' => c'.length.isSome)) := by
        simp [List.filterMap_cons, hfind, Option.filter, hs']
      rw [hcons]
      constructor
      · intro habs
        have hle : (rest.filterMap (fun i =>
            (topo.cables.find? (fun c' => decide (c'.id = i))).filter
              (fun c' => c'.length.isSome))).length ≤ rest.length :=
          List.length_filterMap_le _ _
        rw [List.length_cons] at habs
        omega
      · intro hall
        have hx := hall i (by simp)
        rw [hlen, hs'] at hx
        cases hx

lemma filterMap_rec_sum (topo : Topology) : ∀ ids : List Nat,
    (∀ i ∈ ids, ∃ c, topo.cables.find? (fun c' => decide (c'.id = i)) = some c) →
    (∀ i ∈ ids, (lengthOfCable topo i).isSome = true) →
    ((ids.filterMap (fun i =>
        (topo.cables.find? (fun c' => decide (c'.id = i))).filter
          (fun c' => c'.length.isSome))).filterMap Cable.length) =
      ids.filterMap (lengthOfCable topo) := by
  intro ids
  induction ids with
  | nil => intro _ _; rfl
  | cons i rest ih =>
    intro h hall
    obtain ⟨c, hfind⟩ := h i (by simp)
    have hlen : lengthOfCable topo i = c.length := by
      simp [lengthOfCable, hfind]
    have hs : c.length.isSome = true := by
      have hx := hall i (by simp)
      rwa [hlen] at hx
    obtain ⟨q, hq⟩ := Option.isSome_iff_exists.mp hs
    have hcons : ((i :: rest).filterMap (fun i =>
        (topo.cables.find? (fun c' => decide (c'.id = i))).filter
          (fun c' => c'.length.isSome))) =
        c :: (rest.filterMap (fun i =>
          (topo.cables.find? (fun c' => decide (c'.id = i))).filter
            (fun c' => c'.length.isSome))) := by
      simp [List.filterMap_cons, hfind, Option.filter, hs]
    have hcons3 : (i :: rest).filterMap (lengthOfCable topo) =
        q :: rest.filterMap (lengthOfCable topo) := by
      simp [List.filterMap_cons, hlen, hq]
    rw [hcons, hcons3, List.filterMap_cons]
    simp only [hq]
    rw [ih (fun j hj => h j (by simp [hj])) (fun j hj => hall j (by simp [hj]))]

lemma total_length_spec (topo : Topology) (ids : List Nat)
    (hnodup : (topo.cables.map Cable.id).Nodup) (hids : ids.Nodup)
    (hpresent : ∀ i ∈ ids, ∃ c ∈ topo.cables, c.id = i) :
    (((topo.cables.filter
        (fun c => ids.any (fun i => decide (i = c.id)) && c.length.isSome)).length
        = ids.length) ↔ ∀ i ∈ ids, (lengthOfCable topo i).isSome = true) ∧
    (ids ≠ [] → (∀ i ∈ ids, (lengthOfCable topo i).isSome = true) →
      ((topo.cables.filter
          (fun c => ids.any (fun i => decide (i = c.id)) && c.length.isSome)).filterMap
            Cable.length).sum = (ids.filterMap (lengthOfCable topo)).sum ∧
      (topo.cables.filter
          (fun c => ids.any (fun i => decide (i = c.id)) && c.length.isSome)).isEmpty
        = false) := by
  have hPn : topo.cables.Nodup := List.Nodup.of_map _ hnodup
  have hFsome : ∀ i ∈ ids, ∃ c, topo.cables.find? (fun c' => decide (c'.id = i)) = some c := by
    intro i hi
    obtain ⟨c, hcP, hcid⟩ := hpresent i hi
    exact ⟨c, by rw [← hcid]; exact find_id_eq hnodup hcP⟩
  have hmem : ∀ c, c ∈ (topo.cables.filter
      (fun c => ids.any (fun i => decide (i = c.id)) && c.length.isSome)) ↔
      c ∈ ids.filterMap (fun i =>
        (topo.cables.find? (fun c' => decide (c'.id = i))).filter
          (fun c' => c'.length.isSome)) := by
    intro c
    constructor
    · intro hcm
      rw [List.mem_filter] at hcm
      obtain ⟨hcP, hpred⟩ := hcm
      simp only [Bool.and_eq_true, List.any_eq_true, decide_eq_true_eq] at hpred
      obtain ⟨⟨i, hi, hieq⟩, hsome⟩ := hpred
      subst hieq
      refine List.mem_filterMap.mpr ⟨c.id, hi, ?_⟩
      rw [find_id_eq hnodup hcP]
      simp [Option.filter, hsome]
    · intro hcm
      obtain ⟨i, hi, hfil⟩ := List.mem_filterMap.mp hcm
      cases hfind : topo.cables.find? (fun c' => decide (c'.id = i)) with
      | none => rw [hfind] at hfil; simp [Option.filter] at hfil
      | some d =>
        rw [hfind] at hfil
        have hdc : d = c ∧ d.length.isSome = true := by
          by_cases hd : d.length.isSome = true
          · simp only [Option.filter, hd, if_true, Option.some.injEq] at hfil
            exact ⟨hfil, hd⟩
          · simp only [Option.filter, Bool.not_eq_true] at hd
            simp [Option.filter, hd] at hfil
        obtain ⟨rfl, hsome⟩ := hdc
        obtain ⟨hdP, hdid⟩ := find_id_mem hfind
        rw [List.mem_filter]
        refine ⟨hdP, ?_⟩
        simp only [Bool.and_eq_true, List.any_eq_true, decide_eq_true_eq]
        exact ⟨⟨i, hi, hdid.symm⟩, hsome⟩
  have hnd1 : (topo.cables.filter
      (fun c => ids.any (fun i => decide (i = c.id)) && c.length.isSome)).Nodup :=
    hPn.filter _
  have hnd2 : (ids.filterMap (fun i =>
      (topo.cables.find? (fun c' => decide (c'.id = i))).filter
        (fun c' => c'.length.isSome))).Nodup := by
    refine List.Nodup.filterMap ?_ hids
    intro a a' b hba hba'
    rw [Option.mem_def] at hba hba'
    have hida : b.id = a := by
      cases hf : topo.cables.find? (fun c' => decide (c'.id = a)) with
      | none => rw [hf] at hba; simp [Option.filter] at hba
      | some d =>
        rw [hf] at hba
        have : d = b := by
          by_cases hd : d.length.isSome = true
          · simpa [Option.filter, hd] using hba
          · simp only [Bool.not_eq_true] at hd
            simp [Option.filter, hd] at hba
        subst this
        exact (find_id_mem hf).2
    have hida' : b.id = a' := by
      cases hf : topo.cables.find? (fun c' => decide (c'.id = a')) with
      | none => rw [hf] at hba'; simp [Option.filter] at hba'
      | some d =>
        rw [hf] at hba'
        have : d = b := by
          by_cases hd : d.length.isSome = true
          · simpa [Option.filter, hd] using hba'
          · simp only [Bool.not_eq_true] at hd
            simp [Option.filter, hd] at hba'
        subst this
        exact (find_id_mem hf).2
    rw [← hida, ← hida']
  have hperm : (topo.cables.filter
      (fun c => ids.any (fun i => decide (i = c.id)) && c.length.isSome)).Perm
      (ids.filterMap (fun i =>
        (topo.cables.find? (fun c' => decide (c'.id = i))).filter
          (fun c' => c'.length.isSome))) :=
    (List.perm_ext_iff_of_nodup hnd1 hnd2).mpr hmem
  constructor
  · rw [hperm.length_eq]
    exact filterMap_rec_length topo ids hFsome
  · intro hne hall
    constructor
    · rw [(hperm.filterMap Cable.length).sum_eq]
      rw [filterMap_rec_sum topo ids hFsome hall]
    · obtain ⟨i0, hi0⟩ : ∃ i0, i0 ∈ ids := by
        cases ids with
        | nil => exact absurd rfl hne
        | cons a b => exact ⟨a, by simp⟩
      obtain ⟨c0, hf0⟩ := hFsome i0 hi0
      obtain ⟨hc0P, hc0id⟩ := find_id_mem hf0
      have hs0 : c0.length.isSome = true := by
        have hx := hall i0 hi0
        rwa [lengthOfCable, hf0] at hx
      have hc0m : c0 ∈ (topo.cables.filter
          (fun c => ids.any (fun i => decide (i = c.id)) && c.length.isSome)) := by
        rw [List.mem_filter]
        refine ⟨hc0P, ?_⟩
        simp only [Bool.and_eq_true, List.any_eq_true, decide_eq_true_eq]
        exact ⟨⟨i0, hi0, hc0id.symm⟩, hs0⟩
      cases hcs : (topo.cables.filter
          (fun c => ids.any (fun i => decide (i = c.id)) && c.length.isSome)) with
      | nil => rw [hcs] at hc0m; cases hc0m
      | cons x xs => simp

/-- C9: `get_total_length` is definitive exactly when every cable of the
path has a recorded length; when all lengths are recorded (and the path
crosses at least one cable) the total is the exact sum of the recorded
normalized lengths; one missing length makes the flag false. -/
theorem c9_total_length (topo : Topology) (p : CablePath)
    (hnodup : (topo.cables.map Cable.id).Nodup)
    (hids : p.get_cable_ids.Nodup)
    (hpresent : ∀ i ∈ p.get_cable_ids, ∃ c ∈ topo.cables, c.id = i) :
    ((p.get_total_length topo).2 = true ↔
      ∀ i ∈ p.get_cable_ids, (lengthOfCable topo i).isSome = true) ∧
    (p.get_cable_ids ≠ [] →
      (∀ i ∈ p.get_cable_ids, (lengthOfCable topo i).isSome = true) →
      (p.get_total_length topo).1 =
        some (p.get_cable_ids.filterMap (lengthOfCable topo)).sum) ∧
    ((∃ i ∈ p.get_cable_ids, lengthOfCable topo i = none) →
      (p.get_total_length topo).2 = false) := by
  obtain ⟨hiff, hrest⟩ := total_length_spec topo p.get_cable_ids hnodup hids hpresent
  refine ⟨?_, ?_, ?_⟩
  · simpa [CablePath.get_total_length] using hiff
  · intro hne hall
    obtain ⟨hsum, hempty⟩ := hrest hne hall
    simp [CablePath.get_total_length, hempty, hsum]
  · rintro ⟨i, hi, hnone⟩
    have hne : ¬((topo.cables.filter (fun c =>
        p.get_cable_ids.any (fun i => decide (i = c.id)) && c.length.isSome)).length
        = p.get_cable_ids.length) := by
      intro he
      have hx := hiff.mp he i hi
      rw [hnone] at hx
      cases hx
    simp [CablePath.get_total_length, hne]

/-- Witness for C9 on `topoLen`: both cables recorded gives a definitive
4 m total; the path crossing the length-less cable 3 is not definitive. -/
theorem c9_total_length_witness :
    (pLenFull.get_total_length topoLen).2 = true ∧
    (pLenFull.get_total_length topoLen).1 = some 4 ∧
    (pLenPart.get_total_length topoLen).2 = false := by
  refine ⟨?_, ?_, ?_⟩
  · exact (c9_total_length topoLen pLenFull (by decide) (by decide)
      (by decide)).1.mpr (by decide)
  · have h := (c9_total_length topoLen pLenFull (by decide) (by decide)
      (by decide)).2.1 (by decide) (by decide)
    rw [h, show pLenFull.get_cable_ids.filterMap (lengthOfCable topoLen) =
      [(3 : ℚ)/2, 5/2] from rfl]
    norm_num [List.sum_cons, List.sum_nil]
  · exact (c9_total_length topoLen pLenPart (by decide) (by decide)
      (by decide)).2.2 ⟨3, by decide, by decide⟩
